import Mathlib

/-!
Verification of the shortest-import lint rule (an ESLint rule choosing
between relative and aliased import specifiers by path-segment count).

The rule's source is a single TypeScript file.  Its pure helpers
(`countSegments`, `buildAliasMap`, `findShortestAlias`, `toRelativeImport`)
and the per-import decision logic of `create/ImportDeclaration` are embedded
below as executable Lean functions over `String`.  JavaScript strings are
ASCII in every specifier of interest, so string operations are modelled on
`String.data` (the underlying character list) with structural helpers, which
the kernel can evaluate.

The rule resolves aliased specifiers through the `createMatchPath` function
of the tsconfig-paths dependency, passing `undefined` for the `readJson` and
`fileExists` arguments, so the library falls back to its disk-based
defaults.  That resolution is embedded as `matchPath`, parameterised by an
explicit `fileExists : String → Bool` oracle standing for the state of the
filesystem, and includes the implicit match-all mapping `"*"` ↦ `baseUrl/*`
that the library appends by default (`addMatchAll = true`) when the paths
object has no `"*"` key (the package.json main-field lookup of the library
is not modelled; no property here depends on it).
-/

/-- Characters of a string (JavaScript strings are indexed by code unit;
all inputs of interest are ASCII, where code units and characters agree). -/
def chars (s : String) : List Char := s.data

/-- String from characters. -/
def ofChars (l : List Char) : String := ⟨l⟩

/-- JavaScript `s.startsWith(p)`. -/
def startsWithStr (s p : String) : Bool := p.data.isPrefixOf s.data

/-- JavaScript `s.endsWith(p)`. -/
def endsWithStr (s p : String) : Bool := p.data.isSuffixOf s.data

/-- JavaScript `s.length` (ASCII). -/
def strLen (s : String) : Nat := s.data.length

/-- JavaScript `s.slice(0, n)` / `substring(0, n)` (ASCII). -/
def strTake (s : String) (n : Nat) : String := ⟨s.data.take n⟩

/-- JavaScript `s.slice(n)` (ASCII). -/
def strDrop (s : String) (n : Nat) : String := ⟨s.data.drop n⟩

/-- Drop the last `n` characters. -/
def strDropRight (s : String) (n : Nat) : String := strTake s (strLen s - n)

/-- Split a character list at a separator character, JavaScript
`split` semantics: the empty input yields one empty field. -/
def splitChar (c : Char) : List Char → List (List Char)
  | [] => [[]]
  | x :: xs =>
    let r := splitChar c xs
    if x == c then [] :: r
    else
      match r with
      | [] => [[x]]
      | h :: t => (x :: h) :: t

/-- JavaScript `s.split("/")`. -/
def splitOnSlash (s : String) : List String :=
  (splitChar (Char.ofNat 47) s.data).map ofChars

/-- Join with "/" (inverse of `splitOnSlash` on slash-free fields). -/
def joinSlash : List String → String
  | [] => ""
  | [x] => x
  | x :: xs => x ++ "/" ++ joinSlash xs

/-- Strip a single leading "./" — the rule's `replace(/^\.\//, "")`. -/
def stripLeadingDotSlash (s : String) : String :=
  if startsWithStr s "./" then strDrop s 2 else s

/-- `countSegments` from the rule source: strip one leading "./", split on
"/", keep the fields that are nonempty and not ".", return how many. -/
def countSegments (importPath : String) : Nat :=
  ((splitOnSlash (stripLeadingDotSlash importPath)).filter
    (fun seg => seg != "" && seg != ".")).length

/-- Node path normalisation on segment lists: drop empty and "." segments,
let ".." pop the previous segment (or vanish at the root of an absolute
path), as `path.resolve` and `path.join` do. -/
def normSegs (l : List String) : List String :=
  l.foldl
    (fun acc seg =>
      if seg == "" || seg == "." then acc
      else if seg == ".." then acc.dropLast
      else acc ++ [seg])
    []

/-- Segments of an absolute path after normalisation. -/
def absSegs (p : String) : List String := normSegs (splitOnSlash p)

/-- Node `path.resolve(base, rel)` for an absolute `base`. -/
def resolveAbs (base rel : String) : String :=
  let combined := if startsWithStr rel "/" then rel else base ++ "/" ++ rel
  "/" ++ joinSlash (absSegs combined)

/-- Drop the common prefix of two segment lists. -/
def dropCommon : List String → List String → List String × List String
  | a :: as, b :: bs => if a == b then dropCommon as bs else (a :: as, b :: bs)
  | as, bs => (as, bs)

/-- Node `path.relative(fromAbs, toAbs)` for absolute arguments: ".." for
each remaining source segment, then the remaining target segments. -/
def relativePath (fromAbs toAbs : String) : String :=
  let p := dropCommon (absSegs fromAbs) (absSegs toAbs)
  joinSlash (List.replicate p.1.length ".." ++ p.2)

/-- Node `path.dirname` for an absolute path. -/
def dirname (p : String) : String :=
  "/" ++ joinSlash (absSegs p).dropLast

/-- The rule's `replace(/\.(ts|tsx|js|jsx)$/, "")`: strip one known
source-file extension from the end. -/
def stripKnownExt (p : String) : String :=
  if endsWithStr p ".tsx" then strDropRight p 4
  else if endsWithStr p ".jsx" then strDropRight p 4
  else if endsWithStr p ".ts" then strDropRight p 3
  else if endsWithStr p ".js" then strDropRight p 3
  else p

/-- The rule's `replace(/\/index$/, "")`: strip one trailing "/index". -/
def stripTrailingIndex (p : String) : String :=
  if endsWithStr p "/index" then strDropRight p 6 else p

/-- The rule's `replace(/\/\*$/, "")` in `buildAliasMap`: strip one
trailing "/*" wildcard marker. -/
def stripTrailingWildcard (s : String) : String :=
  if endsWithStr s "/*" then strDropRight s 2 else s

/-- JavaScript `Map.prototype.set`: overwrite the value in place when the
key is present (keeping the original insertion position), append otherwise. -/
def mapSet (m : List (String × String)) (k v : String) : List (String × String) :=
  if m.any (fun e => e.1 == k) then
    m.map (fun e => if e.1 == k then (k, v) else e)
  else m ++ [(k, v)]

/-- `buildAliasMap` from the rule source: for each (alias, target) pair of
the tsconfig paths object, strip trailing "/*" from both, resolve the target
against the base url, and `Map.set` absolute target ↦ alias prefix. -/
def buildAliasMap (baseUrl : String) (paths : List (String × List String)) :
    List (String × String) :=
  paths.foldl
    (fun m entry =>
      entry.2.foldl
        (fun m target =>
          mapSet m (resolveAbs baseUrl (stripTrailingWildcard target))
            (stripTrailingWildcard entry.1))
        m)
    []

/-- `findShortestAlias` from the rule source: strip a known extension from
the absolute path, then for every map entry whose target is a
`startsWith` prefix of it, build alias prefix + remainder, strip one
trailing "/index", and keep the candidate with the fewest segments (the
first seen wins ties).  The base url argument is unused, as in the source. -/
def findShortestAlias (absolutePath _baseUrl : String)
    (aliasMap : List (String × String)) : Option String :=
  let normalized := stripKnownExt absolutePath
  aliasMap.foldl
    (fun best entry =>
      if startsWithStr normalized entry.1 then
        let remainder := strDrop normalized (strLen entry.1)
        let aliasImport := stripTrailingIndex (entry.2 ++ remainder)
        match best with
        | none => some aliasImport
        | some b =>
          if countSegments aliasImport < countSegments b then some aliasImport
          else best
      else best)
    none

/-- `toRelativeImport` from the rule source: `path.relative`, prefix "./"
when the result does not already start with ".", strip one known extension,
strip one trailing "/index". -/
def toRelativeImport (fromDir toAbsolute : String) : String :=
  let r0 := relativePath fromDir toAbsolute
  let r1 := if startsWithStr r0 "." then r0 else "./" ++ r0
  stripTrailingIndex (stripKnownExt r1)

/-- Index of the first "*" in a character list. -/
def starIdxAux : List Char → Nat → Option Nat
  | [], _ => none
  | c :: cs, i => if c == Char.ofNat 42 then some i else starIdxAux cs (i + 1)

/-- Index of the first "*" in a string (`indexOf("*")`). -/
def starIdx (s : String) : Option Nat := starIdxAux s.data 0

/-- tsconfig-paths `getPrefixLength`: length of the text before the first
"*" of a pattern, 0 when the pattern has no "*". -/
def starPrefixLen (pattern : String) : Nat :=
  match starIdx pattern with
  | some i => i
  | none => 0

/-- Stable descending insertion for `sortPatterns`. -/
def insertPatternSorted (x : String × List String) :
    List (String × List String) → List (String × List String)
  | [] => [x]
  | y :: ys =>
    if starPrefixLen y.1 ≤ starPrefixLen x.1 then x :: y :: ys
    else y :: insertPatternSorted x ys

/-- tsconfig-paths `sortByLongestPrefix`: mappings sorted by the length of
the pattern text before "*", longest first, stable (JavaScript `sort`). -/
def sortPatterns (l : List (String × List String)) : List (String × List String) :=
  l.foldr insertPatternSorted []

/-- tsconfig-paths `matchStar(pattern, search)`: match `search` against a
single-star `pattern`, returning the text the star stands for. -/
def matchStar (pattern search : String) : Option String :=
  if strLen search < strLen pattern then none
  else if pattern == "*" then some search
  else
    match starIdx pattern with
    | none => none
    | some i =>
      let part1 := strTake pattern i
      let part2 := strDrop pattern (i + 1)
      if strTake search i != part1 then none
      else if strDrop search (strLen search - strLen part2) != part2 then none
      else some (strTake (strDrop search i) (strLen search - strLen pattern + 1))

/-- JavaScript `s.replace("*", m)`: replace the first "*" only. -/
def replaceFirstStar (s m : String) : String :=
  match starIdx s with
  | none => s
  | some i => strTake s i ++ m ++ strDrop s (i + 1)

/-- tsconfig-paths `getPathsToTry` candidates for one physical path: the
bare path, the path with each extension appended, then "/index" with each
extension.  `true` marks an index candidate, whose match resolves to the
directory (`dirname`), the others to the path with its extension removed. -/
def tryPathsFor (extensions : List String) (physicalPath : String) :
    List (Bool × String) :=
  (false, physicalPath) ::
    (extensions.map (fun e => (false, physicalPath ++ e)) ++
      extensions.map (fun e => (true, physicalPath ++ "/index" ++ e)))

/-- tsconfig-paths `removeExtension`: `substring(0, lastIndexOf("."))`,
falling back to the whole path when there is no dot or the cut is empty. -/
def lastDotIdx (l : List Char) : Option Nat :=
  (l.foldl
    (fun (acc : Option Nat × Nat) c =>
      (if c == Char.ofNat 46 then some acc.2 else acc.1, acc.2 + 1))
    (none, 0)).1

/-- See `lastDotIdx`. -/
def removeExtension (p : String) : String :=
  match lastDotIdx p.data with
  | none => p
  | some 0 => p
  | some i => strTake p i

/-- tsconfig-paths `findFirstExistingPath` over file/extension/index
candidates: the first candidate the filesystem oracle accepts wins. -/
def findFirstExisting (fileExists : String → Bool) :
    List (Bool × String) → Option String
  | [] => none
  | c :: rest =>
    if fileExists c.2 then
      some (if c.1 then dirname c.2 else removeExtension c.2)
    else findFirstExisting fileExists rest

/-- JavaScript `absoluteBaseUrl.replace(/\/$/, "")`: strip one trailing "/". -/
def stripTrailingSlash (s : String) : String :=
  if endsWithStr s "/" then strDropRight s 1 else s

/-- tsconfig-paths `getAbsoluteMappingEntries` with the rule's default
`addMatchAll = true`: the configured mappings sorted by longest prefix
and, when no `"*"` key is configured, the implicit match-all entry
`"*"` ↦ `baseUrl/*` appended last (the library adds it because that is
how TypeScript itself resolves non-relative imports against `baseUrl`). -/
def mappingEntries (absoluteBaseUrl : String)
    (paths : List (String × List String)) : List (String × List String) :=
  let sorted := sortPatterns paths
  if paths.any (fun e => e.1 == "*") then sorted
  else sorted ++ [("*", [stripTrailingSlash absoluteBaseUrl ++ "/*"])]

/-- tsconfig-paths `createMatchPath`/`matchFromAbsolutePaths` as the rule
invokes it (disk-based defaults, modelled by the `fileExists` oracle):
sort the mappings and append the implicit match-all entry, collect
candidate physical paths of every matching pattern in order, and return
the first candidate that exists. -/
def matchPath (absoluteBaseUrl : String) (paths : List (String × List String))
    (fileExists : String → Bool) (extensions : List String)
    (requested : String) : Option String :=
  if requested == "" then none
  else if startsWithStr requested "." then none
  else
    let entries := mappingEntries absoluteBaseUrl paths
    let tryPaths :=
      entries.foldl
        (fun acc entry =>
          let starMatch :=
            if entry.1 == requested then some "" else matchStar entry.1 requested
          match starMatch with
          | none => acc
          | some m =>
            acc ++
              entry.2.foldl
                (fun a target =>
                  a ++ tryPathsFor extensions
                    (replaceFirstStar (resolveAbs absoluteBaseUrl target) m))
                [])
        []
    findFirstExisting fileExists tryPaths

/-- The fixed extension list the rule passes to `matchPath`. -/
def ruleExtensions : List String := [".ts", ".tsx", ".js", ".jsx", ""]

/-- The rule's verdict for one import occurrence. -/
inductive Verdict where
  | keep : Verdict
  | replace (alt : String) : Verdict
deriving DecidableEq

/-- The `ImportDeclaration` listener of the rule: classify by a leading
".", compute the alternative of the opposite kind, and report (`replace`)
exactly when the branch's guards pass.  The `if alt == ""` cases mirror the
JavaScript truthiness tests `if (aliasImport)` and `if (!resolved)`. -/
def importVerdict (absoluteBaseUrl : String)
    (paths : List (String × List String)) (fileExists : String → Bool)
    (fileDir source : String) : Verdict :=
  let currentSegments := countSegments source
  if startsWithStr source "." then
    let absolutePath := resolveAbs fileDir source
    let aliasMap := buildAliasMap absoluteBaseUrl paths
    match findShortestAlias absolutePath absoluteBaseUrl aliasMap with
    | none => Verdict.keep
    | some aliasImport =>
      if aliasImport == "" then Verdict.keep
      else if countSegments aliasImport < currentSegments then
        Verdict.replace aliasImport
      else Verdict.keep
  else
    match matchPath absoluteBaseUrl paths fileExists ruleExtensions source with
    | none => Verdict.keep
    | some resolved =>
      if resolved == "" then Verdict.keep
      else
        let relativeImport := toRelativeImport fileDir resolved
        if countSegments relativeImport < currentSegments then
          Verdict.replace relativeImport
        else Verdict.keep

/-- The alternative candidate the listener weighs against the original:
the shortest alias for a relative specifier, the relative form of the
resolved path for an aliased one; `none` when the branch's existence guard
(JavaScript truthiness included) fails. -/
def bestAlternative (absoluteBaseUrl : String)
    (paths : List (String × List String)) (fileExists : String → Bool)
    (fileDir source : String) : Option String :=
  if startsWithStr source "." then
    match findShortestAlias (resolveAbs fileDir source) absoluteBaseUrl
        (buildAliasMap absoluteBaseUrl paths) with
    | none => none
    | some aliasImport => if aliasImport == "" then none else some aliasImport
  else
    match matchPath absoluteBaseUrl paths fileExists ruleExtensions source with
    | none => none
    | some resolved =>
      if resolved == "" then none else some (toRelativeImport fileDir resolved)

/-- The result of `loadConfig` in `create`: either failure (no tsconfig or
no usable compilerOptions) or a base url with the paths mapping. -/
inductive ConfigResult where
  | failed : ConfigResult
  | success (absoluteBaseUrl : String) (paths : List (String × List String)) :
      ConfigResult

/-- `create` from the rule source at the per-import level: on a failed
configuration it returns an empty listener object, so no import is ever
analysed and every occurrence is untouched (`keep`). -/
def ruleVerdict (config : ConfigResult) (fileExists : String → Bool)
    (fileDir source : String) : Verdict :=
  match config with
  | ConfigResult.failed => Verdict.keep
  | ConfigResult.success b p => importVerdict b p fileExists fileDir source

/-- The option schema of the rule (`meta.schema`): its single property.
`additionalProperties: false` rejects everything else. -/
def schemaProperties : List String := ["tsconfigPath"]

/-- `additionalProperties` of the rule's option schema. -/
def schemaAdditionalProperties : Bool := false

/-- The replacement text both `fix` callbacks emit:
`fixer.replaceText(node.source, `"${alt}"`)` — the alternative wrapped in
double quotes, independent of the original string's quote character. -/
def fixReplacementText (alt : String) : String := "\"" ++ alt ++ "\""

/-- The listener's verdict, written through `bestAlternative`: both
branches keep on a missing (or falsy) alternative and otherwise replace
exactly when the alternative counts strictly fewer segments. -/
theorem importVerdict_eq (b : String) (ps : List (String × List String))
    (fs : String → Bool) (d s : String) :
    importVerdict b ps fs d s =
      match bestAlternative b ps fs d s with
      | none => Verdict.keep
      | some a =>
        if countSegments a < countSegments s then Verdict.replace a
        else Verdict.keep := by
  unfold importVerdict bestAlternative
  cases h : startsWithStr s "."
  · simp only [h, Bool.false_eq_true, reduceIte]
    cases hm : matchPath b ps fs ruleExtensions s
    · rfl
    · rename_i r
      cases he : (r == "") <;> simp [he]
  · simp only [h, reduceIte]
    cases hf : findShortestAlias (resolveAbs d s) b (buildAliasMap b ps)
    · rfl
    · rename_i a
      cases he : (a == "") <;> simp [he]

/-- Claim C1: the engine replaces exactly when an alternative of the
opposite kind exists and counts strictly fewer segments; with no
alternative, or an alternative of equal or greater count, it keeps. -/
theorem decision_replace_iff (b : String) (ps : List (String × List String))
    (fs : String → Bool) (d s : String) :
    (∀ a, importVerdict b ps fs d s = Verdict.replace a ↔
      bestAlternative b ps fs d s = some a ∧
        countSegments a < countSegments s) ∧
    (bestAlternative b ps fs d s = none →
      importVerdict b ps fs d s = Verdict.keep) ∧
    (∀ a, bestAlternative b ps fs d s = some a →
      countSegments s ≤ countSegments a →
      importVerdict b ps fs d s = Verdict.keep) := by
  rw [importVerdict_eq]
  refine ⟨fun a => ?_, fun h => by rw [h], fun a h hle => ?_⟩
  · cases hb : bestAlternative b ps fs d s with
    | none => simp
    | some a2 =>
      by_cases hc : countSegments a2 < countSegments s <;>
        simp only [hc, reduceIte] <;> constructor
      · rintro h2; cases h2; exact ⟨rfl, hc⟩
      · rintro ⟨h2, _⟩; cases h2; rfl
      · rintro ⟨⟩
      · rintro ⟨h2, h3⟩; cases h2; exact absurd h3 hc
  · rw [h]
    simp only [Nat.not_lt.mpr hle, reduceIte]

/-- Claim C2: the six specifiers of the spec's segment-counting table. -/
theorem countSegments_table :
    countSegments "./foo" = 1 ∧ countSegments "../bar/baz" = 3 ∧
    countSegments "@components/Button" = 2 ∧
    countSegments "@/components/Button" = 3 ∧
    countSegments "@utils" = 1 ∧ countSegments "a/b/c" = 3 := by decide

/-- Claim C3: with alias `@utils/*` ↦ `/base/utils` and the imported file
`/base/utilsExtra/helpers.ts` on disk, the `startsWith` substring test
accepts `/base/utils` as a prefix of `/base/utilsExtra/helpers`, so the
rule rewrites `../../utilsExtra/helpers` to `@utilsExtra/helpers`.  On
that same filesystem the rule's own resolution of `@utilsExtra/helpers`
finds nothing — the configured pattern requires the separator after
`@utils`, and the implicit match-all entry probes
`/base/@utilsExtra/helpers`, a different path — so the rewrite does not
preserve the import's meaning. -/
theorem alias_substring_match_bug :
    importVerdict "/base" [("@utils/*", ["./utils/*"])]
        (fun p => p == "/base/utilsExtra/helpers.ts")
        "/base/pkg/sub" "../../utilsExtra/helpers" =
      Verdict.replace "@utilsExtra/helpers" ∧
    matchPath "/base" [("@utils/*", ["./utils/*"])]
        (fun p => p == "/base/utilsExtra/helpers.ts")
        ruleExtensions "@utilsExtra/helpers" = none := by decide

/-- Claim C4, counterexample: two alias prefixes resolving to the same
target directory do not both survive — the map keyed by absolute target
keeps only the later entry, and resolution can only ever offer `@b`. -/
theorem duplicate_target_overwrites :
    buildAliasMap "/base" [("@a/*", ["./x/*"]), ("@b/*", ["./x/*"])] =
      [("/base/x", "@b")] ∧
    findShortestAlias "/base/x/m" "/base"
        (buildAliasMap "/base" [("@a/*", ["./x/*"]), ("@b/*", ["./x/*"])]) =
      some "@b/m" := by decide

/-- Claim C4, amended: the builder keys entries by absolute target
directory, so of two aliases sharing one target only the later one is
kept (at the earlier entry's position), whatever the strings involved. -/
theorem alias_map_later_alias_wins (b a1 a2 t : String) :
    buildAliasMap b [(a1, [t]), (a2, [t])] =
      [(resolveAbs b (stripTrailingWildcard t), stripTrailingWildcard a2)] := by
  simp [buildAliasMap, mapSet]

/-- Claim C5, counterexample: the rule's option schema admits only
`tsconfigPath` (no tie-break policy exists to configure), and on an exact
tie — alternative `@b/c` versus original `./b/c`, two segments each — the
verdict is `keep`; nothing can force a replacement. -/
theorem no_tie_break_option :
    schemaProperties = ["tsconfigPath"] ∧
    schemaAdditionalProperties = false ∧
    bestAlternative "/s" [("@b/*", ["./a/b/*"])] (fun _ => false)
        "/s/a" "./b/c" = some "@b/c" ∧
    countSegments "@b/c" = countSegments "./b/c" ∧
    importVerdict "/s" [("@b/*", ["./a/b/*"])] (fun _ => false)
        "/s/a" "./b/c" = Verdict.keep := by decide

/-- Claim C5, amended: no tie-break policy is configurable; whenever the
alternative's segment count equals the original's the verdict is `keep`,
the fixed behaviour the spec calls keep-original. -/
theorem tie_always_keeps (b : String) (ps : List (String × List String))
    (fs : String → Bool) (d s a : String)
    (h1 : bestAlternative b ps fs d s = some a)
    (h2 : countSegments a = countSegments s) :
    importVerdict b ps fs d s = Verdict.keep := by
  rw [importVerdict_eq, h1]
  simp [h2]

/-- Witness for `tie_always_keeps` at a concrete tie. -/
theorem tie_always_keeps_witness :
    importVerdict "/s2" [("@z/*", ["./a/z/*"])] (fun _ => false)
        "/s2/a" "./z/c" = Verdict.keep :=
  tie_always_keeps "/s2" [("@z/*", ["./a/z/*"])] (fun _ => false)
    "/s2/a" "./z/c" "@z/c" (by decide) (by decide)

/-- Claim C6, counterexample: with the same directory, specifier and alias
table, the verdict for `@u/helpers` is `replace "./helpers"` when
`/a/u/helpers.ts` exists on disk and `keep` when it does not — the
aliased branch consults the filesystem through `matchPath`. -/
theorem filesystem_affects_verdict :
    importVerdict "/a" [("@u/*", ["./u/*"])] (fun p => p == "/a/u/helpers.ts")
        "/a/u" "@u/helpers" = Verdict.replace "./helpers" ∧
    importVerdict "/a" [("@u/*", ["./u/*"])] (fun _ => false)
        "/a/u" "@u/helpers" = Verdict.keep := by decide

/-- Claim C6, amended: the relative branch is a pure function of directory,
specifier and alias table — the filesystem oracle never affects it — and
the aliased branch depends on the filesystem only through the result of
`matchPath`, whose candidate probes are where the extension list is used. -/
theorem verdict_filesystem_dependence (b : String)
    (ps : List (String × List String)) (d s : String)
    (fs1 fs2 : String → Bool) :
    (startsWithStr s "." = true →
      importVerdict b ps fs1 d s = importVerdict b ps fs2 d s) ∧
    (matchPath b ps fs1 ruleExtensions s = matchPath b ps fs2 ruleExtensions s →
      importVerdict b ps fs1 d s = importVerdict b ps fs2 d s) := by
  constructor
  · intro h
    unfold importVerdict
    rw [if_pos h, if_pos h]
  · intro h
    unfold importVerdict
    cases hrel : startsWithStr s "."
    · simp only [hrel, Bool.false_eq_true, reduceIte]
      rw [h]
    · simp only [hrel, reduceIte]

/-- Claim C7, counterexample: with aliases `@x/*` ↦ `/a` and `@c/*` ↦
`/a/b/c` and the file `/a/b/c.ts` on disk, the engine rewrites `@x/b/c`
to `./b/c`; re-analysing that output from the same directory yields
another `replace` (to the one-segment `@c`), not `keep`. -/
theorem replace_output_replaced_again :
    importVerdict "/a" [("@x/*", ["./*"]), ("@c/*", ["./b/c/*"])]
        (fun p => p == "/a/b/c.ts") "/a" "@x/b/c" = Verdict.replace "./b/c" ∧
    importVerdict "/a" [("@x/*", ["./*"]), ("@c/*", ["./b/c/*"])]
        (fun p => p == "/a/b/c.ts") "/a" "./b/c" = Verdict.replace "@c" := by
  decide

/-- Claim C7, amended: re-analysing a `replace` output can itself yield a
further `replace`, but every `replace` strictly decreases the segment
count, so a chain of rewrites never revisits a form and two forms cannot
oscillate. -/
theorem replace_strictly_shorter (b : String)
    (ps : List (String × List String)) (fs : String → Bool) (d s a : String)
    (h : importVerdict b ps fs d s = Verdict.replace a) :
    countSegments a < countSegments s := by
  rw [importVerdict_eq] at h
  cases hb : bestAlternative b ps fs d s with
  | none => rw [hb] at h; cases h
  | some a2 =>
    rw [hb] at h
    dsimp only at h
    by_cases hc : countSegments a2 < countSegments s
    · rw [if_pos hc] at h
      cases h
      exact hc
    · rw [if_neg hc] at h
      cases h

/-- Witness for `replace_strictly_shorter` at a concrete replacement. -/
theorem replace_strictly_shorter_witness :
    countSegments "@c2/m" < countSegments "./b2/c2/m" :=
  replace_strictly_shorter "/r" [("@c2/*", ["./b2/c2/*"])] (fun _ => false)
    "/r" "./b2/c2/m" "@c2/m" (by decide)

/-- Claim C8, counterexample: a successfully loaded configuration whose
paths mapping is empty is not a pass-through no-op — through the implicit
match-all mapping `"*"` ↦ `/base/*`, the bare specifier `utils/helpers`
from `/base/utils` resolves to the on-disk `/base/utils/helpers.ts` and
the rule reports the shorter `./helpers`. -/
theorem empty_paths_still_reports :
    ruleVerdict (ConfigResult.success "/base" [])
        (fun p => p == "/base/utils/helpers.ts")
        "/base/utils" "utils/helpers" = Verdict.replace "./helpers" := by
  decide

/-- Claim C8, amended: a failed configuration load makes `create` return
an empty listener, so every specifier from every directory is left
untouched whatever the filesystem contains; with a loaded configuration
whose paths mapping is empty, every relative specifier is likewise left
untouched (the rule's own alias table is empty), though non-relative ones
can still be reported through the implicit match-all mapping.  The
embedding is total, so no exception exists to escape. -/
theorem config_unavailable_noop (fs : String → Bool) (b d s : String) :
    ruleVerdict ConfigResult.failed fs d s = Verdict.keep ∧
    (startsWithStr s "." = true →
      ruleVerdict (ConfigResult.success b []) fs d s = Verdict.keep) := by
  refine ⟨rfl, fun h => ?_⟩
  show importVerdict b [] fs d s = Verdict.keep
  unfold importVerdict
  simp only [h, reduceIte]
  rfl

/-- Claim C9, counterexample: the aliased import `@u/index`, resolving to
the importing directory's own index file, is rewritten to the relative
form `"."`, whose segment count is 0 — the produced alternative violates
the claimed lower bound of 1. -/
theorem own_index_zero_segments :
    importVerdict "/a" [("@u/*", ["./u/*"])] (fun p => p == "/a/u/index.ts")
        "/a/u" "@u/index" = Verdict.replace "." ∧
    countSegments "." = 0 := by decide

/-- Claim C9, amended: a specifier counts at least one segment exactly when,
after stripping one leading "./", some slash-delimited field is nonempty
and differs from "." — so counts can be 0, as for the forms "." and "./"
the resolver produces when an import resolves to the importing directory
or its index file. -/
theorem countSegments_pos_iff (s : String) :
    1 ≤ countSegments s ↔
      ∃ seg ∈ splitOnSlash (stripLeadingDotSlash s), seg ≠ "" ∧ seg ≠ "." := by
  unfold countSegments
  constructor
  · intro h
    have hne : (splitOnSlash (stripLeadingDotSlash s)).filter
        (fun seg => seg != "" && seg != ".") ≠ [] := by
      intro he
      rw [he] at h
      exact Nat.not_succ_le_zero 0 h
    obtain ⟨x, hx⟩ := List.exists_mem_of_ne_nil _ hne
    have hmem := List.mem_filter.mp hx
    have hp := hmem.2
    simp only [Bool.and_eq_true, bne_iff_ne, ne_eq] at hp
    exact ⟨x, hmem.1, hp.1, hp.2⟩
  · rintro ⟨x, hmem, h1, h2⟩
    have hx : x ∈ (splitOnSlash (stripLeadingDotSlash s)).filter
        (fun seg => seg != "" && seg != ".") := by
      refine List.mem_filter.mpr ⟨hmem, ?_⟩
      simp only [Bool.and_eq_true, bne_iff_ne, ne_eq]
      exact ⟨h1, h2⟩
    exact List.length_pos.mpr (List.ne_nil_of_mem hx)

/-- Claim C10, counterexample: the emitted replacement text always opens
with the double-quote character (0x22), while an original import string
written with single quotes opens with 0x27 — the two quote characters
differ, so the fix does not match the surrounding style. -/
theorem fix_ignores_original_quote :
    (fixReplacementText "@u/helpers").data.head? = some (Char.ofNat 34) ∧
    ("\u0027./a/b\u0027").data.head? = some (Char.ofNat 39) ∧
    Char.ofNat 34 ≠ Char.ofNat 39 := by decide

/-- Claim C10, amended: on every `replace` verdict the fix substitutes the
alternative wrapped in double quotes (0x22 at both ends), whatever the
original's quoting was; it matches the surrounding style only when the
original already used double quotes. -/
theorem fix_always_double_quoted (a : String) :
    (fixReplacementText a).data.head? = some (Char.ofNat 34) ∧
    (fixReplacementText a).data.getLast? = some (Char.ofNat 34) := by
  cases a with
  | mk l =>
    have hd : (fixReplacementText ⟨l⟩).data =
        (Char.ofNat 34 :: l) ++ [Char.ofNat 34] := rfl
    rw [hd]
    exact ⟨rfl, List.getLast?_concat _⟩
